import Mathlib

/-!
Shallow embedding of the brace-balance scanner scripts
(`check_braces.py`, `check_braces_detail.py`, `check_braces_handleMouseDown.py`)
and of the class-name repair script (`fix_ribbon.py`), together with theorems
settling the specification claims about them.
-/

/-- Diagnostic events printed by the scanner scripts: a negative-balance
report (with its 1-based line number), a candidate-closure ("potentially
closed" / "closed at") report, and the final-balance report of the basic
scanner. -/
inductive Event : Type where
  | negative (line : Nat) : Event
  | closed (line : Nat) : Event
  | finalBalance (b : Int) : Event
deriving DecidableEq, Repr

/-- The inner character loop shared by all three scanners:
`for char in line: if char == '{': balance += 1 elif char == '}': balance -= 1`. -/
def lineChars (b : Int) : List Char → Int
  | [] => b
  | c :: cs =>
    if c = '{' then lineChars (b + 1) cs
    else if c = '}' then lineChars (b - 1) cs
    else lineChars b cs

/-- Pure prefix function: number of opening braces minus number of closing
braces in a character sequence. -/
def bracesOf (cs : List Char) : Int :=
  (cs.count '{' : Int) - (cs.count '}' : Int)

/-- Balance of the concatenation of the first `j` lines, as a pure function
of the input. -/
def balAt (lines : List String) (j : Nat) : Int :=
  bracesOf (((lines.take j).map String.toList).flatten)

/-- The line loop of `check_braces.py`: after scanning each line's characters,
if the balance is negative the line is reported and the loop breaks; after the
loop, the final balance is printed when it is non-negative. -/
def checkBracesAux (b : Int) (i : Nat) : List String → List Event
  | [] => if 0 ≤ b then [Event.finalBalance b] else []
  | line :: rest =>
    if lineChars b line.toList < 0 then [Event.negative (i + 1)]
    else checkBracesAux (lineChars b line.toList) (i + 1) rest

/-- The basic scanner `check_braces.py`: scan all lines starting from
balance 0, producing the printed diagnostics in order. -/
def checkBraces (lines : List String) : List Event :=
  checkBracesAux 0 0 lines

/-- Index of the first line whose end-of-line balance is negative, expressed
through the pure prefix function `balAt`. -/
def firstNegIdx (lines : List String) : Option Nat :=
  (List.range lines.length).find? (fun j => balAt lines (j + 1) < 0)

/-- The character loop of `check_braces_detail.py`: on `'{'` the balance is
incremented and, when the current line is line 138 (`i + 1 == 138`), the
tracking flag `found_start` is set; on `'}'` the balance is decremented and,
when `found_start` holds and the balance is exactly 0, a candidate-closure
report for the current line is emitted. Returns the final balance, the final
flag, and the emitted events in order. -/
def detailChars (b : Int) (fs : Bool) (i : Nat) : List Char → Int × Bool × List Event
  | [] => (b, fs, [])
  | c :: cs =>
    if c = '{' then
      detailChars (b + 1) (if i + 1 = 138 then true else fs) i cs
    else if c = '}' then
      let r := detailChars (b - 1) fs i cs
      (r.1, r.2.1, (if fs = true ∧ b - 1 = 0 then [Event.closed (i + 1)] else []) ++ r.2.2)
    else detailChars b fs i cs

/-- The line loop of `check_braces_detail.py`: scan each line's characters,
then break with a negative-balance report when the balance is negative at the
end of the line. Returns the final balance, flag, and all printed events. -/
def detailAuxSt (b : Int) (fs : Bool) (i : Nat) : List String → Int × Bool × List Event
  | [] => (b, fs, [])
  | line :: rest =>
    let r := detailChars b fs i line.toList
    if r.1 < 0 then (r.1, r.2.1, r.2.2 ++ [Event.negative (i + 1)])
    else
      let r2 := detailAuxSt r.1 r.2.1 (i + 1) rest
      (r2.1, r2.2.1, r.2.2 ++ r2.2.2)

/-- The tracked scanner `check_braces_detail.py`: the events it prints. -/
def checkBracesDetail (lines : List String) : List Event :=
  (detailAuxSt 0 false 0 lines).2.2

/-- Zero-return events of one line expressed through the pure prefix function
`bracesOf`: position `j` of the line yields a candidate-closure report exactly
when it holds a closing brace, tracking is active there (the flag was already
set, or this is line 138 and an opening brace occurs earlier in the line), the
balance was above 0 just before, and it is exactly 0 just after. -/
def zeroReturnsSpec (b : Int) (fs : Bool) (i : Nat) (cs : List Char) : List Event :=
  (List.range cs.length).filterMap (fun j =>
    if cs.get? j = some '}' ∧
        (fs = true ∨ (i + 1 = 138 ∧ (cs.take j).contains '{' = true)) ∧
        0 < b + bracesOf (cs.take j) ∧ b + bracesOf (cs.take (j + 1)) = 0
    then some (Event.closed (i + 1)) else none)

/-- The character loop of `check_braces_handleMouseDown.py`: on `'{'` the
balance is incremented and the flag `found_start` is set; on `'}'` the
balance is decremented and, when `found_start` holds and the balance is
exactly 0, a candidate-closure report for the current line is emitted. -/
def rangeChars (b : Int) (fs : Bool) (i : Nat) : List Char → Int × Bool × List Event
  | [] => (b, fs, [])
  | c :: cs =>
    if c = '{' then rangeChars (b + 1) true i cs
    else if c = '}' then
      let r := rangeChars (b - 1) fs i cs
      (r.1, r.2.1, (if fs = true ∧ b - 1 = 0 then [Event.closed (i + 1)] else []) ++ r.2.2)
    else rangeChars b fs i cs

/-- The loop `for i in range(start_line - 1, end_line)` of
`check_braces_handleMouseDown.py`, with the remaining iteration count as
fuel. `lines[i]` is fetched with no bounds check — `none` models the uncaught
IndexError — and the loop breaks with a negative-balance report when
`found_start` holds and the balance is negative at the end of a line. -/
def rangeAux (lines : List String) : Nat → Nat → Int → Bool → Option (List Event)
  | 0, _, _, _ => some []
  | n + 1, i, b, fs =>
    match lines.get? i with
    | none => none
    | some line =>
      let r := rangeChars b fs i line.toList
      if r.2.1 = true ∧ r.1 < 0 then some (r.2.2 ++ [Event.negative (i + 1)])
      else
        match rangeAux lines n (i + 1) r.1 r.2.1 with
        | none => none
        | some rest => some (r.2.2 ++ rest)

/-- The range-bounded scanner: scan lines `start_line` through `end_line`
(1-based, inclusive), starting from balance 0 with the trigger unfired. -/
def rangeScan (lines : List String) (start_line end_line : Nat) : Option (List Event) :=
  rangeAux lines (end_line - (start_line - 1)) (start_line - 1) 0 false

/-- The script's hardcoded bounds: `start_line = 374`, `end_line = 988`. -/
def rangeScanMain (lines : List String) : Option (List Event) :=
  rangeScan lines 374 988

/-- Python's `\s` whitespace class (ASCII range, which covers these inputs). -/
def isWS (c : Char) : Bool :=
  c = ' ' || c = '\t' || c = '\n' || c = '\r' || c = '\x0b' || c = '\x0c'

/-- The `[a-zA-Z0-9]` class used by the repair script's regexes. -/
def isAlnum (c : Char) : Bool :=
  ('a' ≤ c && c ≤ 'z') || ('A' ≤ c && c ≤ 'Z') || ('0' ≤ c && c ≤ '9')

/-- Python's `\w` word-character class (ASCII), deciding `\b` boundaries. -/
def isWordChar (c : Char) : Bool := isAlnum c || c = '_'

/-- One token of the tiny regex subset `fix_ribbon.py` uses. -/
inductive Tok : Type where
  | lit (c : Char) : Tok
  | ws : Tok
  | wss : Tok
  | word : Tok
  | litCap (c : Char) : Tok
deriving DecidableEq, Repr

/-- Maximal run of characters satisfying `p` (greedy class matching). -/
def takeRun (p : Char → Bool) : List Char → List Char × List Char
  | [] => ([], [])
  | c :: cs =>
    if p c then
      let r := takeRun p cs
      (c :: r.1, r.2)
    else ([], c :: cs)

/-- Match a token sequence at the start of `cs`; on success return the
captured groups in order and the remaining characters. Greedy matching
without backtracking is exact here because in every pattern of the script a
greedy class is followed by a character outside that class. -/
def matchToks : List Tok → List Char → Option (List (List Char) × List Char)
  | [], cs => some ([], cs)
  | Tok.lit _ :: _, [] => none
  | Tok.lit c :: ts, x :: cs => if x = c then matchToks ts cs else none
  | Tok.ws :: _, [] => none
  | Tok.ws :: ts, x :: cs => if isWS x then matchToks ts cs else none
  | Tok.wss :: ts, cs =>
    let r := takeRun isWS cs
    if r.1.isEmpty then none else matchToks ts r.2
  | Tok.word :: ts, cs =>
    let r := takeRun isAlnum cs
    if r.1.isEmpty then none
    else (matchToks ts r.2).map (fun g => (r.1 :: g.1, g.2))
  | Tok.litCap _ :: _, [] => none
  | Tok.litCap c :: ts, x :: cs =>
    if x = c then (matchToks ts cs).map (fun g => ([x] :: g.1, g.2)) else none

/-- The `re.sub`/`str.replace` engine: scan left to right; at each position
try the pattern (checking the `\b` word boundary against the previous
original character when required); on a match emit the replacement built from
the captured groups and resume right after the matched text. Fuel bounds the
recursion; at least one character is consumed per step, so the input length
suffices. -/
def substAux (toks : List Tok) (mk : List (List Char) → List Char) (bdry : Bool) :
    Nat → Option Char → List Char → List Char
  | 0, _, cs => cs
  | _ + 1, _, [] => []
  | n + 1, prev, c :: rest =>
    let bok := !bdry || (match prev with | none => true | some p => !isWordChar p)
    if bok = true then
      match matchToks toks (c :: rest) with
      | some (gs, rest2) =>
        if rest2.length < rest.length + 1 then
          mk gs ++ substAux toks mk bdry n
            (((c :: rest).take (rest.length + 1 - rest2.length)).getLast?) rest2
        else c :: substAux toks mk bdry n (some c) rest
      | none => c :: substAux toks mk bdry n (some c) rest
    else c :: substAux toks mk bdry n (some c) rest

/-- One whole-string substitution pass. -/
def subst (toks : List Tok) (mk : List (List Char) → List Char) (bdry : Bool)
    (cs : List Char) : List Char :=
  substAux toks mk bdry cs.length none cs

/-- Literal tokens for `str.replace` and the literal parts of patterns. -/
def litToks (s : String) : List Tok := s.toList.map Tok.lit

/-- Python `str.replace`: every non-overlapping occurrence, left to right. -/
def replaceAll (find rep : String) (cs : List Char) : List Char :=
  subst (litToks find) (fun _ => rep.toList) false cs

/-- Replacement `\1-\2` of the two-group patterns. -/
def joinGroups : List (List Char) → List Char
  | [g1, g2] => g1 ++ '-' :: g2
  | _ => []

/-- Rule 1 of `fix_ribbon.py`: `([a-zA-Z0-9]+)\s-\s([a-zA-Z0-9]+)` → `\1-\2`. -/
def rule1 (cs : List Char) : List Char :=
  subst [Tok.word, Tok.ws, Tok.lit '-', Tok.ws, Tok.word] joinGroups false cs

/-- The class-name heads targeted by rule 2 of `fix_ribbon.py`, in order. -/
def prefixList : List String :=
  ["p", "px", "py", "m", "mx", "my", "duration", "z", "top", "left", "right",
   "bottom", "gap", "h", "w", "min", "max"]

/-- Rule 2 of `fix_ribbon.py` for one head `p`: `\b<p>\s-\s` → `<p>-`. -/
def rule2one (p : String) (cs : List Char) : List Char :=
  subst (litToks p ++ [Tok.ws, Tok.lit '-', Tok.ws]) (fun _ => p.toList ++ ['-']) true cs

/-- Rule 3 of `fix_ribbon.py`: `([a-zA-Z0-9]+)\s-\s(\[)` → `\1-\2`. -/
def rule3 (cs : List Char) : List Char :=
  subst [Tok.word, Tok.ws, Tok.lit '-', Tok.ws, Tok.litCap '['] joinGroups false cs

/-- The twenty literal `str.replace` fixes of `fix_ribbon.py`, in order. -/
def literalFixes : List (String × String) :=
  [("panel - border", "panel-border"), ("panel - bg", "panel-bg"),
   ("items - stretch", "items-stretch"), ("select - none", "select-none"),
   ("transition - all", "transition-all"), ("transition - colors", "transition-colors"),
   ("transition - transform", "transition-transform"), ("items - center", "items-center"),
   ("justify - center", "justify-center"), ("border - b", "border-b"),
   ("border - l", "border-l"), ("border - r", "border-r"), ("border - t", "border-t"),
   ("shadow - xl", "shadow-xl"), ("shadow - inner", "shadow-inner"),
   ("flex - col", "flex-col"), ("flex - 1", "flex-1"), ("rounded - full", "rounded-full"),
   ("hover: bg -", "hover:bg-"), ("bg - white", "bg-white")]

/-- Rule 4: `bg-\[var\(--border\s-\scolor\)\]mx\s-\s1` →
`bg-[var(--border-color)] mx-1`. -/
def rule4 (cs : List Char) : List Char :=
  subst (litToks "bg-[var(--border" ++ [Tok.ws, Tok.lit '-', Tok.ws] ++ litToks "color)]mx"
      ++ [Tok.ws, Tok.lit '-', Tok.ws] ++ litToks "1")
    (fun _ => "bg-[var(--border-color)] mx-1".toList) false cs

/-- Rule 5: `bg-\[var\(--border\s-\scolor\)\]` → `bg-[var(--border-color)]`. -/
def rule5 (cs : List Char) : List Char :=
  subst (litToks "bg-[var(--border" ++ [Tok.ws, Tok.lit '-', Tok.ws] ++ litToks "color)]")
    (fun _ => "bg-[var(--border-color)]".toList) false cs

/-- Rule 6: `hover:\s+bg\s+-\s+` → `hover:bg-`. -/
def rule6 (cs : List Char) : List Char :=
  subst (litToks "hover:" ++ [Tok.wss] ++ litToks "bg" ++ [Tok.wss, Tok.lit '-', Tok.wss])
    (fun _ => "hover:bg-".toList) false cs

/-- The full substitution pipeline of `fix_ribbon.py`, in source order. -/
def fixRibbon (cs : List Char) : List Char :=
  rule6 (rule5 (rule4 (literalFixes.foldl (fun acc pr => replaceAll pr.1 pr.2 acc)
    (rule3 (prefixList.foldl (fun acc p => rule2one p acc) (rule1 cs))))))

-- Basic sanity checks on concrete inputs.
example : checkBraces ["\x7b \x7d \x7d"] = [Event.negative 1] := by decide

example : checkBraces ["\x7b", "\x7d"] = [Event.finalBalance 0] := by decide

example : checkBraces ["\x7d\x7b"] = [Event.finalBalance 0] := by decide

-- Sanity checks.
set_option maxRecDepth 8000 in
example :
    checkBracesDetail (List.replicate 137 "" ++ ["\x7b \x7b \x7d \x7d"]) = [Event.closed 138] := by
  decide

example : (detailChars 0 true 0 "\x7b\x7d\x7b\x7d".toList).2.2 = [Event.closed 1, Event.closed 1] := by
  decide

example : zeroReturnsSpec 0 true 0 "\x7b\x7d\x7b\x7d".toList = [Event.closed 1, Event.closed 1] := by
  decide

-- Sanity checks.
example : rangeScan ["\x7d"] 1 1 = some [] := by decide

example : rangeScan ["\x7b", "\x7d"] 1 2 = some [Event.closed 2] := by decide

example : rangeScan ["\x7b\x7d\x7d"] 1 1 = some [Event.closed 1, Event.negative 1] := by decide

example : rangeScan ["x"] 1 2 = none := by decide

example : rangeScan ["\x7d", "\x7b", "\x7d"] 2 3 = some [Event.closed 3] := by decide

-- Sanity checks against the script's behavior.
example : fixRibbon "panel - bg".toList = "panel-bg".toList := by decide

example : fixRibbon "bg - [#333]".toList = "bg-[#333]".toList := by decide

example : fixRibbon "a - b - c".toList = "a-b - c".toList := by decide

example : fixRibbon "a-b - c".toList = "a-b-c".toList := by decide

example : fixRibbon "p - 0.5".toList = "p-0.5".toList := by decide

example : fixRibbon "hover: bg - white".toList = "hover: bg-white".toList := by decide

example : fixRibbon "hover:  bg  -  red".toList = "hover:bg-red".toList := by decide

example : fixRibbon "stop - x".toList = "stop-x".toList := by decide

example : fixRibbon "px - 1".toList = "px-1".toList := by decide

example : fixRibbon "p - .5".toList = "p-.5".toList := by decide

example : fixRibbon "x_p - 5".toList = "x_p-5".toList := by decide

example : fixRibbon "-p - 5".toList = "-p-5".toList := by decide

example : fixRibbon "a  -  b".toList = "a  -  b".toList := by decide

example : fixRibbon "1 - 2 - 3 - 4".toList = "1-2 - 3-4".toList := by decide

example : fixRibbon "min - w - [10px]".toList = "min-w-[10px]".toList := by decide

example : fixRibbon "bg - [var(--border - color)]mx - 1".toList
    = "bg-[var(--border-color)]mx-1".toList := by decide

example : fixRibbon "panel - bg panel - border".toList
    = "panel-bg panel-border".toList := by decide

/-- `bracesOf` steps by the per-character delta. -/
theorem bracesOf_cons (c : Char) (cs : List Char) :
    bracesOf (c :: cs) =
      (if c = '{' then 1 else if c = '}' then -1 else 0) + bracesOf cs := by
  simp only [bracesOf, List.count_cons]
  by_cases h1 : c = '{' <;> by_cases h2 : c = '}' <;> simp_all <;> omega

/-- The character loop computes the initial balance plus the brace count of
the scanned characters. -/
theorem lineChars_eq (b : Int) (cs : List Char) :
    lineChars b cs = b + bracesOf cs := by
  induction cs generalizing b with
  | nil => simp [lineChars, bracesOf]
  | cons c cs ih =>
    rw [bracesOf_cons]
    by_cases h1 : c = '{'
    · simp [lineChars, h1, ih]; ring
    · by_cases h2 : c = '}'
      · simp [lineChars, h1, h2, ih]; ring
      · simp [lineChars, h1, h2, ih]

/-- The character loop processes a concatenation by threading the balance. -/
theorem lineChars_append (b : Int) (xs ys : List Char) :
    lineChars b (xs ++ ys) = lineChars (lineChars b xs) ys := by
  induction xs generalizing b with
  | nil => simp [lineChars]
  | cons c cs ih =>
    by_cases h1 : c = '{'
    · simp [lineChars, h1, ih]
    · by_cases h2 : c = '}' <;> simp [lineChars, h1, h2, ih]

theorem balAt_zero (lines : List String) : balAt lines 0 = 0 := by
  simp [balAt, bracesOf]

theorem balAt_cons (line : String) (rest : List String) (j : Nat) :
    balAt (line :: rest) (j + 1) = bracesOf line.toList + balAt rest j := by
  simp only [balAt, List.take_succ_cons, List.map_cons, List.flatten_cons]
  induction line.toList with
  | nil => simp [bracesOf]
  | cons c cs ih =>
    simp only [List.cons_append, bracesOf_cons, ih]
    ring

/-- The basic scanner's line loop, characterized through the pure prefix
balance: it reports the first line whose end-of-line balance is negative and
halts there; otherwise it reports the final balance. -/
theorem checkBracesAux_eq (lines : List String) (b : Int) (i : Nat)
    (hb : 0 ≤ b) :
    checkBracesAux b i lines =
      match (List.range lines.length).find?
          (fun j => b + balAt lines (j + 1) < 0) with
      | some j => [Event.negative (i + j + 1)]
      | none => [Event.finalBalance (b + balAt lines lines.length)] := by
  induction lines generalizing b i with
  | nil => simp [checkBracesAux, hb, balAt_zero]
  | cons line rest ih =>
    have hbal : ∀ j, b + balAt (line :: rest) (j + 1) =
        lineChars b line.toList + balAt rest j := by
      intro j
      rw [balAt_cons, lineChars_eq]
      ring
    simp only [List.length_cons, List.range_succ_eq_map, List.find?_cons]
    by_cases hneg : lineChars b line.toList < 0
    · have h0 : b + balAt (line :: rest) (0 + 1) < 0 := by
        rw [hbal 0, balAt_zero]; simpa using hneg
      simp only [checkBracesAux, if_pos hneg]
      rw [decide_eq_true h0]
    · have h0 : ¬ (b + balAt (line :: rest) (0 + 1) < 0) := by
        rw [hbal 0, balAt_zero]; simpa using hneg
      simp only [checkBracesAux, if_neg hneg]
      rw [decide_eq_false h0]
      rw [List.find?_map]
      have hrec := ih (lineChars b line.toList) (i + 1) (by omega)
      have hfun : ∀ j : Nat,
          (decide (b + balAt (line :: rest) (j + 1 + 1) < 0)) =
          (decide (lineChars b line.toList + balAt rest (j + 1) < 0)) := by
        intro j
        rw [hbal (j + 1)]
      have hfe : ((fun j => decide (b + balAt (line :: rest) (j + 1) < 0)) ∘ Nat.succ)
          = (fun j => decide (lineChars b line.toList + balAt rest (j + 1) < 0)) := by
        funext j
        simp only [Function.comp_apply, Nat.succ_eq_add_one]
        rw [hfun j]
      rw [hfe, hrec]
      cases hcase : (List.range rest.length).find?
          (fun j => decide (lineChars b line.toList + balAt rest (j + 1) < 0)) with
      | none =>
        simp only [Option.map_none']
        rw [hbal rest.length]
      | some j =>
        have h2 : i + 1 + j + 1 = i + (j + 1) + 1 := by omega
        simp only [Option.map_some', Nat.succ_eq_add_one, h2]

/-- `filterMap` is extensional. -/
theorem filterMap_ext {α β : Type} (f g : α → Option β) (l : List α)
    (h : ∀ a, f a = g a) : l.filterMap f = l.filterMap g := by
  induction l with
  | nil => rfl
  | cons a l ih => simp only [List.filterMap_cons, h a, ih]

/-- Unfolding `zeroReturnsSpec` over the head character: the head yields an
event exactly when it is a closing brace, tracking was already on, and the
balance was 1; the tail is the spec at the shifted balance and flag. -/
theorem zeroReturnsSpec_cons (c : Char) (cs : List Char) (b : Int) (fs : Bool) (i : Nat) :
    zeroReturnsSpec b fs i (c :: cs) =
      (if c = '}' ∧ fs = true ∧ b = 1 then [Event.closed (i + 1)] else []) ++
        zeroReturnsSpec (b + (if c = '{' then 1 else if c = '}' then -1 else 0))
          (if c = '{' ∧ i + 1 = 138 then true else fs) i cs := by
  have hcond0 : ((c :: cs).get? 0 = some '}' ∧
      (fs = true ∨ (i + 1 = 138 ∧ ((c :: cs).take 0).contains '{' = true)) ∧
      0 < b + bracesOf ((c :: cs).take 0) ∧
      b + bracesOf ((c :: cs).take (0 + 1)) = 0)
      ↔ (c = '}' ∧ fs = true ∧ b = 1) := by
    constructor
    · rintro ⟨hg, hf, h3, h4⟩
      have hc : c = '}' := by simpa using hg
      subst hc
      have hv2 : bracesOf (('}' :: cs).take (0 + 1)) = -1 := rfl
      rw [hv2] at h4
      refine ⟨rfl, ?_, by omega⟩
      rcases hf with hf | ⟨-, hcont⟩
      · exact hf
      · simp at hcont
    · rintro ⟨hc, hf, hb⟩
      subst hc
      subst hb
      refine ⟨rfl, Or.inl hf, ?_, ?_⟩
      · have hv1 : bracesOf (('}' :: cs).take 0) = 0 := rfl
        rw [hv1]
        omega
      · have hv2 : bracesOf (('}' :: cs).take (0 + 1)) = -1 := rfl
        rw [hv2]
        omega
  have htail : ∀ j : Nat,
      ((fun j => if (c :: cs).get? j = some '}' ∧
          (fs = true ∨ (i + 1 = 138 ∧ ((c :: cs).take j).contains '{' = true)) ∧
          0 < b + bracesOf ((c :: cs).take j) ∧
          b + bracesOf ((c :: cs).take (j + 1)) = 0
        then some (Event.closed (i + 1)) else none) ∘ Nat.succ) j
      = (fun j => if cs.get? j = some '}' ∧
          ((if c = '{' ∧ i + 1 = 138 then true else fs) = true ∨
            (i + 1 = 138 ∧ (cs.take j).contains '{' = true)) ∧
          0 < (b + (if c = '{' then 1 else if c = '}' then -1 else 0)) + bracesOf (cs.take j) ∧
          (b + (if c = '{' then 1 else if c = '}' then -1 else 0)) + bracesOf (cs.take (j + 1)) = 0
        then some (Event.closed (i + 1)) else none) j := by
    intro j
    simp only [Function.comp_apply]
    apply if_congr _ rfl rfl
    have e1 : (c :: cs).get? (Nat.succ j) = cs.get? j := rfl
    have e2 : (c :: cs).take (Nat.succ j) = c :: cs.take j := rfl
    have e3 : (c :: cs).take (Nat.succ j + 1) = c :: cs.take (j + 1) := rfl
    rw [e1, e2, e3, bracesOf_cons, bracesOf_cons]
    constructor
    · rintro ⟨hg, hf, h3, h4⟩
      refine ⟨hg, ?_, by omega, by omega⟩
      by_cases hco : c = '{' ∧ i + 1 = 138
      · rw [if_pos hco]
        exact Or.inl rfl
      · rw [if_neg hco]
        rcases hf with hf | ⟨htr, hcont⟩
        · exact Or.inl hf
        · right
          refine ⟨htr, ?_⟩
          rw [List.contains_cons] at hcont
          rcases Bool.or_eq_true_iff.1 hcont with h | h
          · exact absurd ⟨(beq_iff_eq.1 h).symm, htr⟩ hco
          · exact h
    · rintro ⟨hg, hf, h3, h4⟩
      refine ⟨hg, ?_, by omega, by omega⟩
      by_cases hco : c = '{' ∧ i + 1 = 138
      · right
        refine ⟨hco.2, ?_⟩
        rw [List.contains_cons]
        have hbq : ('{' == c) = true := by simp [hco.1]
        rw [hbq]
        rfl
      · rw [if_neg hco] at hf
        rcases hf with hf | ⟨htr, hcont⟩
        · exact Or.inl hf
        · right
          refine ⟨htr, ?_⟩
          rw [List.contains_cons, hcont]
          exact Bool.or_true _
  simp only [zeroReturnsSpec, List.length_cons, List.range_succ_eq_map,
    List.filterMap_cons, List.filterMap_map]
  rw [filterMap_ext _ _ _ htail]
  by_cases hsc : c = '}' ∧ fs = true ∧ b = 1
  · rw [if_pos (hcond0.mpr hsc), if_pos hsc]
    rfl
  · rw [if_neg (fun h => hsc (hcond0.mp h)), if_neg hsc]
    rfl

/-- The events emitted by the detail scanner's character loop are exactly the
zero-return events predicted by the pure prefix characterization. -/
theorem detailChars_events (cs : List Char) (b : Int) (fs : Bool) (i : Nat) :
    (detailChars b fs i cs).2.2 = zeroReturnsSpec b fs i cs := by
  induction cs generalizing b fs with
  | nil => rfl
  | cons c cs ih =>
    rw [zeroReturnsSpec_cons]
    by_cases h1 : c = '{'
    · subst h1
      have hstep : detailChars b fs i ('{' :: cs)
          = detailChars (b + 1) (if i + 1 = 138 then true else fs) i cs := rfl
      rw [hstep, ih]
      have e1 : (if ('{' : Char) = '{' then (1 : Int)
          else if ('{' : Char) = '}' then -1 else 0) = 1 := rfl
      have e2 : (if ('{' : Char) = '{' ∧ i + 1 = 138 then true else fs)
          = (if i + 1 = 138 then true else fs) := by
        by_cases htr : i + 1 = 138
        · rw [if_pos ⟨rfl, htr⟩, if_pos htr]
        · rw [if_neg (fun h => htr h.2), if_neg htr]
      rw [e1, e2]
      have hne : ¬(('{' : Char) = '}' ∧ fs = true ∧ b = 1) := fun h => absurd h.1 (by decide)
      rw [if_neg hne, List.nil_append]
    · by_cases h2 : c = '}'
      · subst h2
        have hstep : (detailChars b fs i ('}' :: cs)).2.2
            = (if fs = true ∧ b - 1 = 0 then [Event.closed (i + 1)] else [])
              ++ (detailChars (b - 1) fs i cs).2.2 := rfl
        rw [hstep, ih]
        have e1 : (if ('}' : Char) = '{' then (1 : Int)
            else if ('}' : Char) = '}' then -1 else 0) = -1 := rfl
        have hne2 : ¬(('}' : Char) = '{' ∧ i + 1 = 138) := fun h => absurd h.1 (by decide)
        have e2 : (if ('}' : Char) = '{' ∧ i + 1 = 138 then true else fs) = fs := by
          rw [if_neg hne2]
        rw [e1, e2]
        have e3 : b + -1 = b - 1 := by ring
        rw [e3]
        congr 1
        apply if_congr _ rfl rfl
        constructor
        · rintro ⟨hf, hb⟩
          exact ⟨rfl, hf, by omega⟩
        · rintro ⟨-, hf, hb⟩
          exact ⟨hf, by omega⟩
      · have hstep : detailChars b fs i (c :: cs) = detailChars b fs i cs := by
          simp [detailChars, h1, h2]
        rw [hstep, ih]
        have e1 : (if c = '{' then (1 : Int) else if c = '}' then -1 else 0) = 0 := by
          rw [if_neg h1, if_neg h2]
        have hne3 : ¬(c = '{' ∧ i + 1 = 138) := fun h => h1 h.1
        have e2 : (if c = '{' ∧ i + 1 = 138 then true else fs) = fs := by
          rw [if_neg hne3]
        have hne4 : ¬(c = '}' ∧ fs = true ∧ b = 1) := fun h => h2 h.1
        rw [e1, e2, add_zero]
        rw [if_neg hne4]
        rw [List.nil_append]

/-- The range scanner's character loop computes the same balance as the
shared character loop. -/
theorem rangeChars_balance (cs : List Char) (b : Int) (fs : Bool) (i : Nat) :
    (rangeChars b fs i cs).1 = lineChars b cs := by
  induction cs generalizing b fs with
  | nil => rfl
  | cons c cs ih =>
    by_cases h1 : c = '{'
    · simp [rangeChars, lineChars, h1, ih]
    · by_cases h2 : c = '}' <;> simp [rangeChars, lineChars, h1, h2, ih]

/-- The detail scanner's character loop computes the same balance as the
shared character loop. -/
theorem detailChars_balance (cs : List Char) (b : Int) (fs : Bool) (i : Nat) :
    (detailChars b fs i cs).1 = lineChars b cs := by
  induction cs generalizing b fs with
  | nil => rfl
  | cons c cs ih =>
    by_cases h1 : c = '{'
    · simp [detailChars, lineChars, h1, ih]
    · by_cases h2 : c = '}' <;> simp [detailChars, lineChars, h1, h2, ih]

/-- Once set, the range scanner's trigger stays set across a line. -/
theorem rangeChars_fs_true (cs : List Char) (b : Int) (i : Nat) :
    (rangeChars b true i cs).2.1 = true := by
  induction cs generalizing b with
  | nil => rfl
  | cons c cs ih =>
    by_cases h1 : c = '{'
    · simp [rangeChars, h1, ih]
    · by_cases h2 : c = '}' <;> simp [rangeChars, h1, h2, ih]

/-- On a line with no opening brace, the range scanner's character loop keeps
the trigger unfired and emits nothing. -/
theorem rangeChars_no_open (cs : List Char) (b : Int) (i : Nat)
    (h : cs.contains '{' = false) :
    rangeChars b false i cs = (lineChars b cs, false, []) := by
  induction cs generalizing b with
  | nil => rfl
  | cons c cs ih =>
    rw [List.contains_cons] at h
    have h1 : ¬ c = '{' := by
      intro hc
      subst hc
      simp at h
    have hcs : cs.contains '{' = false := by
      rcases Bool.or_eq_false_iff.1 h with ⟨-, h2⟩
      exact h2
    by_cases h2 : c = '}'
    · subst h2
      simp only [rangeChars, lineChars, if_neg h1, if_pos rfl, ih _ hcs]
      simp
    · simp [rangeChars, lineChars, h1, h2, ih _ hcs]

/-- If no scanned line contains an opening brace, the range loop emits no
events at all (in particular no negative-balance report): the trigger never
fires, so both the closure reports and the gated negative check stay off. -/
theorem rangeAux_no_open (n : Nat) (lines : List String) (i : Nat) (b : Int)
    (hno : ∀ l ∈ lines, l.toList.contains '{' = false) :
    ∀ evs, rangeAux lines n i b false = some evs → evs = [] := by
  induction n generalizing i b with
  | zero =>
    intro evs h
    simpa [rangeAux] using h.symm
  | succ n ih =>
    intro evs h
    rw [rangeAux] at h
    cases hget : lines.get? i with
    | none => rw [hget] at h; exact absurd h (by simp)
    | some line =>
      rw [hget] at h
      simp only [] at h
      have hline : line.toList.contains '{' = false :=
        hno line (List.get?_mem hget)
      rw [rangeChars_no_open line.toList b i hline] at h
      simp only [] at h
      rw [if_neg (by simp : ¬((false = true) ∧ lineChars b line.toList < 0))] at h
      cases hrec : rangeAux lines n (i + 1) (lineChars b line.toList) false with
      | none => rw [hrec] at h; exact absurd h (by simp)
      | some rest =>
        rw [hrec] at h
        have := ih (i + 1) (lineChars b line.toList) rest hrec
        subst this
        simpa using h.symm

/-- With the trigger already fired, a line whose end-of-line balance is
negative makes the range loop report that line and halt. -/
theorem rangeAux_halts (lines : List String) (n i : Nat) (b : Int) (line : String)
    (hget : lines.get? i = some line)
    (hneg : lineChars b line.toList < 0) :
    rangeAux lines (n + 1) i b true
      = some ((rangeChars b true i line.toList).2.2 ++ [Event.negative (i + 1)]) := by
  rw [rangeAux, hget]
  simp only []
  rw [if_pos ⟨rangeChars_fs_true _ _ _, by rw [rangeChars_balance]; exact hneg⟩]

/-- The range loop only looks at the lines it indexes: two line lists that
agree on positions `i` through `i + n - 1` produce the same outcome. -/
theorem rangeAux_congr (n : Nat) (lines1 lines2 : List String) :
    ∀ i b fs, (∀ j, i ≤ j → j < i + n → lines1.get? j = lines2.get? j) →
      rangeAux lines1 n i b fs = rangeAux lines2 n i b fs := by
  induction n with
  | zero => intro i b fs _; rfl
  | succ n ih =>
    intro i b fs h
    have hi : lines1.get? i = lines2.get? i := h i (le_refl i) (by omega)
    rw [rangeAux, rangeAux, ← hi]
    cases hget : lines1.get? i with
    | none => rfl
    | some line =>
      simp only []
      rw [ih (i + 1) (rangeChars b fs i line.toList).1 (rangeChars b fs i line.toList).2.1
        (fun j hj1 hj2 => h j (by omega) (by omega))]

/-- With at least `i + n` lines, every index the range loop touches is in
bounds, so the scan completes without the index fault. -/
theorem rangeAux_isSome (n : Nat) (lines : List String) :
    ∀ i b fs, i + n ≤ lines.length → (rangeAux lines n i b fs).isSome = true := by
  induction n with
  | zero => intro i b fs _; rfl
  | succ n ih =>
    intro i b fs h
    cases hget : lines.get? i with
    | none =>
      exfalso
      rw [List.get?_eq_none] at hget
      omega
    | some line =>
      rw [rangeAux, hget]
      simp only []
      by_cases hhalt : ((rangeChars b fs i line.toList).2.1 = true ∧
          (rangeChars b fs i line.toList).1 < 0)
      · rw [if_pos hhalt]
        rfl
      · rw [if_neg hhalt]
        have hrec2 := ih (i + 1) (rangeChars b fs i line.toList).1
          (rangeChars b fs i line.toList).2.1 (by omega)
        cases hrec : rangeAux lines n (i + 1) (rangeChars b fs i line.toList).1
            (rangeChars b fs i line.toList).2.1 with
        | none => rw [hrec] at hrec2; simp at hrec2
        | some rest => rfl

/-- On a file too short for the loop's index range, the scan either hits the
unchecked index fault or has already halted on a gated negative balance. -/
theorem rangeAux_short (n : Nat) (lines : List String) :
    ∀ i b fs, i ≤ lines.length → lines.length < i + n →
      rangeAux lines n i b fs = none ∨
        ∃ evs l, rangeAux lines n i b fs = some (evs ++ [Event.negative l]) := by
  induction n with
  | zero => intro i b fs h1 h2; omega
  | succ n ih =>
    intro i b fs h1 h2
    cases hget : lines.get? i with
    | none =>
      left
      rw [rangeAux, hget]
    | some line =>
      have hi : i < lines.length := by
        by_contra hc
        rw [List.get?_eq_none.2 (by omega)] at hget
        exact absurd hget (by simp)
      rw [rangeAux, hget]
      simp only []
      by_cases hhalt : ((rangeChars b fs i line.toList).2.1 = true ∧
          (rangeChars b fs i line.toList).1 < 0)
      · rw [if_pos hhalt]
        right
        exact ⟨(rangeChars b fs i line.toList).2.2, i + 1, rfl⟩
      · rw [if_neg hhalt]
        rcases ih (i + 1) (rangeChars b fs i line.toList).1
            (rangeChars b fs i line.toList).2.1 (by omega) (by omega) with
          hrec | ⟨evs, l, hrec⟩
        · left
          rw [hrec]
        · right
          refine ⟨(rangeChars b fs i line.toList).2.2 ++ evs, l, ?_⟩
          rw [hrec, List.append_assoc]

/-- The detail scanner's flag after a line: set iff it was already set, or
this is line 138 and the line contains an opening brace. -/
theorem detailChars_fs (cs : List Char) (b : Int) (fs : Bool) (i : Nat) :
    (detailChars b fs i cs).2.1 = (fs || (decide (i + 1 = 138) && cs.contains '{')) := by
  induction cs generalizing b fs with
  | nil => simp [detailChars]
  | cons c cs ih =>
    by_cases h1 : c = '{'
    · subst h1
      have hstep : detailChars b fs i ('{' :: cs)
          = detailChars (b + 1) (if i + 1 = 138 then true else fs) i cs := rfl
      rw [hstep, ih, List.contains_cons]
      by_cases htr : i + 1 = 138
      · simp [htr]
      · simp [htr]
    · by_cases h2 : c = '}'
      · subst h2
        have hstep : (detailChars b fs i ('}' :: cs)).2.1
            = (detailChars (b - 1) fs i cs).2.1 := rfl
        rw [hstep, ih, List.contains_cons]
        simp
      · have hstep : detailChars b fs i (c :: cs) = detailChars b fs i cs := by
          simp [detailChars, h1, h2]
        rw [hstep, ih, List.contains_cons]
        have hne : ('{' == c) = false := by
          simp [Ne.symm h1]
        rw [hne]
        simp

/-- Once the detail scanner's flag is set it stays set for the rest of the
scan, whether or not the scan halts on a negative balance. -/
theorem detailAuxSt_fs_true (lines : List String) (b : Int) (i : Nat) :
    (detailAuxSt b true i lines).2.1 = true := by
  induction lines generalizing b i with
  | nil => rfl
  | cons line rest ih =>
    rw [detailAuxSt]
    simp only []
    have hfs : (detailChars b true i line.toList).2.1 = true := by
      rw [detailChars_fs]
      simp
    by_cases hneg : (detailChars b true i line.toList).1 < 0
    · rw [if_pos hneg]
      exact hfs
    · rw [if_neg hneg, hfs]
      exact ih _ _

/-- The first `j` lines flattened form an initial segment of the whole
flattened input, so `balAt` is the brace count of a prefix of the full
character stream. -/
theorem balAt_as_take (lines : List String) (j : Nat) :
    balAt lines j = bracesOf (((lines.map String.toList).flatten).take
      (((lines.take j).map String.toList).flatten).length) := by
  have hsplit : (lines.map String.toList).flatten
      = ((lines.take j).map String.toList).flatten
        ++ ((lines.drop j).map String.toList).flatten := by
    rw [← List.flatten_append, ← List.map_append, List.take_append_drop]
  rw [balAt, hsplit, List.take_left]

/-- C1 counterexample: on the single-line input `"}{"` the running balance
dips to −1 mid-line (after the first character) yet recovers to 0 by the end
of the line, and `check_braces.py` reports no negative balance and does not
halt — it prints the final balance 0. This refutes the claim that a
mid-line dip below zero is reported. -/
theorem c1_counterexample :
    checkBraces ["\x7d\x7b"] = [Event.finalBalance 0] ∧
      lineChars 0 ['}'] = -1 ∧
      Event.negative 1 ∉ checkBraces ["\x7d\x7b"] := by
  refine ⟨by decide, by decide, by decide⟩

/-- C1 amended: the basic scanner checks the balance only at the end of each
line: it reports (and halts at) exactly the first line whose end-of-line
balance — the pure prefix count `balAt` — is negative, and otherwise reports
the final balance; a mid-line dip that recovers by the end of its line is
never reported. -/
theorem c1_amended (lines : List String) :
    checkBraces lines =
      match firstNegIdx lines with
      | some j => [Event.negative (j + 1)]
      | none => [Event.finalBalance (balAt lines lines.length)] := by
  have h := checkBracesAux_eq lines 0 0 (le_refl 0)
  rw [checkBraces, h]
  have hfe : (fun j => decide (0 + balAt lines (j + 1) < 0))
      = (fun j => decide (balAt lines (j + 1) < 0)) := by
    funext j
    rw [zero_add]
  rw [firstNegIdx, hfe]
  cases hcase : (List.range lines.length).find?
      (fun j => decide (balAt lines (j + 1) < 0)) with
  | none =>
    simp only []
    rw [zero_add]
  | some j =>
    simp only []
    rw [zero_add]

set_option maxRecDepth 16000 in
/-- C2: in the tracked scanner, the events of the character loop are exactly
the zero-return events — one report per closing brace at which the balance
returns to 0 from above with the trigger fired, the scan continuing past each
one — and on the input whose line 138 is `"{ { } }"` with the trigger fired at
its first opening brace, exactly one zero-return event is reported, at the
line holding the final closing brace. -/
theorem c2_zero_return :
    (∀ (b : Int) (fs : Bool) (i : Nat) (cs : List Char),
      (detailChars b fs i cs).2.2 = zeroReturnsSpec b fs i cs) ∧
    checkBracesDetail (List.replicate 137 "" ++ ["\x7b \x7b \x7d \x7d"]) = [Event.closed 138] := by
  constructor
  · intro b fs i cs
    exact detailChars_events cs b fs i
  · decide

/-- C5 counterexample: one application of the `fix_ribbon.py` rule set to
`"a - b - c"` yields `"a-b - c"`, which still contains the target pattern
`"b - c"`; a second application yields `"a-b-c"`, a different string. The
rule set is therefore not idempotent. -/
theorem c5_counterexample :
    fixRibbon "a - b - c".toList = "a-b - c".toList ∧
      fixRibbon "a-b - c".toList = "a-b-c".toList ∧
      "a-b - c".toList ≠ "a-b-c".toList := by
  refine ⟨by decide, by decide, by decide⟩

set_option maxRecDepth 40000 in
/-- C5 amended: applying the rule set twice coincides with applying it once
only when no target pattern is left after the first pass — as on the spec's
sample inputs — but not for every input: on `"a - b - c"` the first pass
leaves the pattern `"b - c"` (matches are non-overlapping, left to right),
so the second application changes the result. -/
theorem c5_amended :
    fixRibbon (fixRibbon "panel - bg".toList) = fixRibbon "panel - bg".toList ∧
      fixRibbon (fixRibbon "bg - [#333]".toList) = fixRibbon "bg - [#333]".toList ∧
      fixRibbon (fixRibbon "a - b - c".toList) ≠ fixRibbon "a - b - c".toList := by
  refine ⟨by decide, by decide, by decide⟩

/-- C8: the `fix_ribbon.py` rule set maps `"panel - bg"` to `"panel-bg"` and
`"bg - [#333]"` to `"bg-[#333]"`. -/
theorem c8_samples :
    fixRibbon "panel - bg".toList = "panel-bg".toList ∧
      fixRibbon "bg - [#333]".toList = "bg-[#333]".toList := by
  refine ⟨by decide, by decide⟩

/-- C9: in every scanner the balance is the pure prefix function of the
characters scanned: the shared character loop computes the initial balance
plus (number of `'{'` minus number of `'}'`), threads across concatenation
without ever being reset, steps by +1 on `'{'`, −1 on `'}'` and 0 otherwise,
and the detail and range character loops compute that same balance. -/
theorem c9_balance_invariant :
    (∀ (b : Int) (cs : List Char), lineChars b cs = b + bracesOf cs) ∧
    (∀ (b : Int) (xs ys : List Char),
      lineChars b (xs ++ ys) = lineChars (lineChars b xs) ys) ∧
    (∀ (c : Char),
      lineChars 0 [c] = (if c = '{' then 1 else if c = '}' then -1 else 0)) ∧
    (∀ (b : Int) (fs : Bool) (i : Nat) (cs : List Char),
      (detailChars b fs i cs).1 = lineChars b cs) ∧
    (∀ (b : Int) (fs : Bool) (i : Nat) (cs : List Char),
      (rangeChars b fs i cs).1 = lineChars b cs) := by
  refine ⟨lineChars_eq, lineChars_append, ?_, ?_, ?_⟩
  · intro c
    rw [lineChars_eq 0 [c], bracesOf_cons]
    have hnil : bracesOf ([] : List Char) = 0 := rfl
    rw [hnil]
    ring
  · intro b fs i cs
    exact detailChars_balance cs b fs i
  · intro b fs i cs
    exact rangeChars_balance cs b fs i

/-- A fuel step whose index is out of bounds faults immediately. -/
theorem rangeAux_oob (lines : List String) (n i : Nat) (b : Int) (fs : Bool)
    (h : lines.length ≤ i) : rangeAux lines (n + 1) i b fs = none := by
  rw [rangeAux, List.get?_eq_none.2 h]

/-- C3 counterexample: with range `[1, 1]` over the single line `"}"`, the
balance inside the range ends at −1 with no opening brace seen, yet the
scanner reports nothing and does not halt with a negative-balance report —
refuting the claim that negative-balance detection fires even when no opening
brace has been encountered in the range. -/
theorem c3_counterexample :
    rangeScan ["\x7d"] 1 1 = some [] ∧ (rangeChars 0 false 0 "\x7d".toList).1 = -1 := by
  refine ⟨by decide, by decide⟩

/-- C3 amended: the range scanner's negative-balance detection is gated on
`found_start`: while no opening brace has been seen inside the range the scan
reports nothing at all, and once the trigger has fired, a line whose
end-of-line balance is negative is reported and halts the scan, as in the
basic scanner's per-line check. -/
theorem c3_amended (lines : List String) (n i : Nat) (b : Int) :
    ((∀ l ∈ lines, l.toList.contains '{' = false) →
      ∀ evs, rangeAux lines n i b false = some evs → evs = []) ∧
    (∀ line, lines.get? i = some line → lineChars b line.toList < 0 →
      rangeAux lines (n + 1) i b true
        = some ((rangeChars b true i line.toList).2.2 ++ [Event.negative (i + 1)])) := by
  constructor
  · intro hno evs h
    exact rangeAux_no_open n lines i b hno evs h
  · intro line hget hneg
    exact rangeAux_halts lines n i b line hget hneg

/-- C3 witness: both halves of the amended claim instantiated on the
one-line input `["}"]`. -/
theorem c3_amended_witness :
    ([] : List Event) = [] ∧ rangeAux ["\x7d"] 1 0 0 true = some [Event.negative 1] := by
  constructor
  · exact (c3_amended ["\x7d"] 1 0 0).1 (by decide) [] (by decide)
  · have h := (c3_amended ["\x7d"] 0 0 0).2 "\x7d" (by decide) (by decide)
    exact h.trans (by decide)

/-- C4: the range scanner depends only on the lines of the inclusive range:
two inputs agreeing on lines `s` through `e` produce identical diagnostics,
whatever brace characters (or imbalance) lie before or after the range. -/
theorem c4_range_agreement (lines1 lines2 : List String) (s e : Nat)
    (h : ∀ j, j < e + 1 → s ≤ j → lines1.get? (j - 1) = lines2.get? (j - 1)) :
    rangeScan lines1 s e = rangeScan lines2 s e := by
  rw [rangeScan, rangeScan]
  apply rangeAux_congr
  intro j0 hj1 hj2
  have hj : j0 + 1 - 1 = j0 := by omega
  have hget := h (j0 + 1) (by omega) (by omega)
  rwa [hj] at hget

/-- C4 witness: two files differing arbitrarily outside the range `[2, 2]`
but agreeing on line 2 get identical scans. -/
theorem c4_range_agreement_witness :
    rangeScan ["x", "\x7d", "y"] 2 2 = rangeScan ["\x7b\x7b\x7b", "\x7d", "((("] 2 2 := by
  apply c4_range_agreement
  decide

/-- C6: on any input whose full character stream is brace-balanced — every
prefix has at least as many opening as closing braces, and the totals are
equal — the basic scanner prints no negative-balance message and reports a
final balance of 0. -/
theorem c6_balanced_clean (lines : List String)
    (h1 : ∀ k, k ≤ ((lines.map String.toList).flatten).length →
      0 ≤ bracesOf (((lines.map String.toList).flatten).take k))
    (h2 : bracesOf ((lines.map String.toList).flatten) = 0) :
    checkBraces lines = [Event.finalBalance 0] := by
  have h := checkBracesAux_eq lines 0 0 (le_refl 0)
  have hnonneg : ∀ j, 0 ≤ balAt lines j := by
    intro j
    rw [balAt_as_take]
    apply h1
    have hsplit : (lines.map String.toList).flatten
        = ((lines.take j).map String.toList).flatten
          ++ ((lines.drop j).map String.toList).flatten := by
      rw [← List.flatten_append, ← List.map_append, List.take_append_drop]
    rw [hsplit, List.length_append]
    omega
  have hnone : (List.range lines.length).find?
      (fun j => decide (0 + balAt lines (j + 1) < 0)) = none := by
    rw [List.find?_eq_none]
    intro j hj
    simp only [decide_eq_true_eq, not_lt]
    have := hnonneg (j + 1)
    omega
  rw [checkBraces, h, hnone]
  simp only []
  have htot : balAt lines lines.length = 0 := by
    rw [balAt, List.take_length]
    exact h2
  rw [zero_add, htot]

/-- C6 witness: the balanced two-line input `["{", "}"]`. -/
theorem c6_balanced_clean_witness :
    checkBraces ["\x7b", "\x7d"] = [Event.finalBalance 0] :=
  c6_balanced_clean ["\x7b", "\x7d"] (by decide) (by decide)

set_option maxRecDepth 16000 in
/-- C7 counterexample: on 138 lines `"x"` the scan reaches and completes
line 138 without halting — it emits no events and ends with balance 0 — yet
`found_start` is still false, because line 138 holds no opening brace. This
refutes the claim that the flag is set once line 138 is reached. -/
theorem c7_counterexample :
    detailAuxSt 0 false 0 (List.replicate 138 "x") = (0, false, []) := by
  decide

/-- C7 amended: the detail scanner's flag is set by encountering an opening
brace on line 138, not by merely reaching that line: after a line's
characters the flag holds iff it already held, or the line is line 138 and
contains `'{'`; and once set it stays set for the rest of the scan. -/
theorem c7_amended :
    (∀ (b : Int) (fs : Bool) (i : Nat) (cs : List Char),
      (detailChars b fs i cs).2.1
        = (fs || (decide (i + 1 = 138) && cs.contains '{'))) ∧
    (∀ (b : Int) (i : Nat) (lines : List String),
      (detailAuxSt b true i lines).2.1 = true) := by
  constructor
  · intro b fs i cs
    exact detailChars_fs cs b fs i
  · intro b i lines
    exact detailAuxSt_fs_true lines b i

set_option maxRecDepth 16000 in
/-- C10 counterexample: a 374-line file — fewer than 988 lines — whose line
374 is `"{}}"`: the trigger fires, the balance goes negative, and the scan
halts on the gated negative-balance report at line 374 without ever touching
a missing index, so no index-out-of-range fault occurs. This refutes the
claim that fewer than 988 lines always aborts the scan with the fault. -/
theorem c10_counterexample :
    (List.replicate 373 "" ++ ["\x7b\x7d\x7d"]).length < 988 ∧
      rangeScanMain (List.replicate 373 "" ++ ["\x7b\x7d\x7d"])
        = some [Event.closed 374, Event.negative 374] := by
  refine ⟨by decide, by decide⟩

/-- C10 amended: the unchecked indexing faults immediately on a file with
fewer than `start_line = 374` lines; with fewer than `end_line = 988` lines
the scan either hits the index fault or has already halted on a gated
negative-balance report; and with at least 988 lines every index access
succeeds, so the fault branch is unreachable. -/
theorem c10_amended (lines : List String) :
    (lines.length < 374 → rangeScanMain lines = none) ∧
    (lines.length < 988 → rangeScanMain lines = none ∨
      ∃ evs l, rangeScanMain lines = some (evs ++ [Event.negative l])) ∧
    (988 ≤ lines.length → (rangeScanMain lines).isSome = true) := by
  refine ⟨?_, ?_, ?_⟩
  · intro hlen
    rw [rangeScanMain, rangeScan]
    exact rangeAux_oob lines 614 373 0 false (by omega)
  · intro hlen
    by_cases hsmall : lines.length ≤ 373
    · left
      rw [rangeScanMain, rangeScan]
      exact rangeAux_oob lines 614 373 0 false hsmall
    · rw [rangeScanMain, rangeScan]
      exact rangeAux_short 615 lines 373 0 false (by omega) (by omega)
  · intro hlen
    rw [rangeScanMain, rangeScan]
    exact rangeAux_isSome 615 lines 373 0 false (by omega)

/-- C10 witness: the three amended branches at concrete inputs — the empty
file faults at once, the 374-line file falls under the short-file
disjunction, and a 988-line file scans without fault. -/
theorem c10_amended_witness :
    rangeScanMain [] = none ∧
      (rangeScanMain (List.replicate 373 "" ++ ["\x7b\x7d\x7d"]) = none ∨
        ∃ evs l, rangeScanMain (List.replicate 373 "" ++ ["\x7b\x7d\x7d"])
          = some (evs ++ [Event.negative l])) ∧
      (rangeScanMain (List.replicate 988 "x")).isSome = true := by
  refine ⟨(c10_amended []).1 (by decide), (c10_amended _).2.1 ?_, (c10_amended _).2.2 ?_⟩
  · rw [List.length_append, List.length_replicate]
    norm_num
  · rw [List.length_replicate]
